import Mathlib

/-!
# go-jsonv2-playground: the two handlers of `cmd/main.go`

`cmd/main.go` builds a fixed `Payload`, hands it to `json.Marshal` of
`encoding/json/v2` under one of two option lists and writes the outcome to the
HTTP response.  The definitions below follow `cmd/main.go` declaration by
declaration.  The standard-library functions it calls (`time.Time.Format`,
`big.Float.Text`, `json.MarshalFunc`, `json.WithMarshalers`, `json.Marshal`,
`http.Error`, `Header.Set`, `ResponseWriter.Write`) are not part of the
repository; each is modelled here after the library's documented behaviour, at
the types at which `cmd/main.go` uses it, and says so in its comment.

Byte slices and Go strings are modelled as `String` (valid UTF-8 text); a
`nil` byte slice is `none`.
-/

namespace JsonPlayground

/-! ## Values -/

/-- The pointee of a `*big.Float`.  Floating-point conversion is outside the
embedding: a float is represented by the shortest decimal text that identifies
it at its precision, which is what `Text('g', -1)` and `MarshalText` produce. -/
structure BigFloat where
  shortest : String
deriving DecidableEq, Repr

/-- Model of `big.NewFloat` applied to a float64 literal, given by the
shortest decimal text of that float64. -/
def NewFloat (shortest : String) : BigFloat := ⟨shortest⟩

/-- Model of `(*big.Float).Text('g', -1)` on a non-nil receiver. -/
def BigFloat.Text (f : BigFloat) : String := f.shortest

/-- A `time.Time` as `Format` reads it: the calendar date and the clock in the
value's own location, the nanosecond, and the location's offset in seconds
east of UTC. -/
structure Time where
  year : Int
  month : Nat
  day : Nat
  hour : Nat
  minute : Nat
  second : Nat
  nanosecond : Nat
  offset : Int
deriving DecidableEq, Repr

/-- The record of `cmd/main.go`; `Value` is a pointer, `none` is `nil`. -/
structure Payload where
  ID : Int
  Timestamp : Time
  Value : Option BigFloat
  Message : String
deriving DecidableEq, Repr

/-- The Go types that occur while a `Payload` is encoded. -/
inductive GoType
  | int
  | string
  | time
  | bigFloat
  | payload
  | pointer (elem : GoType)
  | any
deriving DecidableEq, Repr

/-- A Go value together with its dynamic type, as held in an `any`. -/
inductive GoValue
  | int (n : Int)
  | string (s : String)
  | time (t : Time)
  | bigFloat (f : BigFloat)
  | payload (p : Payload)
  | nilPointer (elem : GoType)
  | pointerTo (target : GoValue)
deriving DecidableEq, Repr

/-- The dynamic type of a value. -/
def GoValue.typeOf : GoValue → GoType
  | .int _ => .int
  | .string _ => .string
  | .time _ => .time
  | .bigFloat _ => .bigFloat
  | .payload _ => .payload
  | .nilPointer elem => .pointer elem
  | .pointerTo target => .pointer target.typeOf

/-- What a Go function `func(T) ([]byte, error)` hands back when it returns:
the byte slice (`none` is `nil`) and the error (`none` is `nil`). -/
structure Returned where
  bytes : Option String
  err : Option String
deriving DecidableEq, Repr

/-- A call either returns or panics. -/
inductive Call
  | returned (r : Returned)
  | panicked (msg : String)
deriving DecidableEq, Repr

/-! ## `time.Time.Format` -/

/-- Model of `appendInt` of `time/format.go`: the decimal form of `x`, the sign
first, padded with leading zeros to `width` digits. -/
def appendInt (x : Int) (width : Nat) : String :=
  let digits := Nat.repr x.natAbs
  (if x < 0 then "-" else "") ++ String.mk (List.replicate (width - digits.length) '0') ++ digits

/-- Drop the trailing zeros of a digit list. -/
def trimZeros (l : List Char) : List Char :=
  (l.reverse.dropWhile (fun c => c == '0')).reverse

/-- Model of `appendNano` for the layout element `.999999999`: nothing for a
zero nanosecond, else a dot and the nine digits without trailing zeros. -/
def appendNano (nanosec : Nat) : String :=
  if nanosec = 0 then "" else "." ++ String.mk (trimZeros (appendInt nanosec 9).data)

/-- The two layouts the program meets: `time.RFC3339` in `cmd/main.go` and
`time.RFC3339Nano`, the encoder's default for `time.Time`. -/
inductive Layout
  | RFC3339
  | RFC3339Nano
deriving DecidableEq, Repr

/-- Model of the zone element `Z07:00`: `Z` at offset zero, else the sign and
the offset in hours and minutes, the division truncating as Go's does. -/
def appendZone (offset : Int) : String :=
  if offset = 0 then "Z"
  else
    let zone := offset.tdiv 60
    (if zone < 0 then "-" else "+") ++ appendInt ((zone.natAbs / 60 : Nat) : Int) 2 ++ ":" ++
      appendInt ((zone.natAbs % 60 : Nat) : Int) 2

/-- Model of `Time.Format` (`appendFormatRFC3339`) for the two layouts. -/
def Time.Format (t : Time) (layout : Layout) : String :=
  appendInt t.year 4 ++ "-" ++ appendInt t.month 2 ++ "-" ++ appendInt t.day 2 ++ "T" ++
    appendInt t.hour 2 ++ ":" ++ appendInt t.minute 2 ++ ":" ++ appendInt t.second 2 ++
    (match layout with
      | .RFC3339 => ""
      | .RFC3339Nano => appendNano t.nanosecond) ++
    appendZone t.offset

/-! ## The two marshal functions of `cmd/main.go` -/

/-- The function wrapped by `timeRFC3339`, `cmd/main.go` lines 20-22. -/
def timeRFC3339Func (t : Time) : Call :=
  .returned ⟨some ("\"" ++ t.Format .RFC3339 ++ "\""), none⟩

/-- The function wrapped by `bigFloatAsString`, `cmd/main.go` lines 23-28.
The type assertion `f.(*big.Float)` succeeds exactly when the dynamic type of
`f` is `*big.Float`, a nil pointer included; `Text` on a nil receiver
dereferences it and panics. -/
def bigFloatAsStringFunc (f : GoValue) : Call :=
  match f with
  | .pointerTo (.bigFloat bf) => .returned ⟨some ("\"" ++ bf.Text ++ "\""), none⟩
  | .nilPointer .bigFloat => .panicked "invalid memory address or nil pointer dereference"
  | _ => .returned ⟨none, none⟩

/-! ## `encoding/json/v2`: strings and raw values -/

/-- Lower-case hexadecimal digit of `n`, for `n < 16`. -/
def hexDigit (n : Nat) : Char :=
  "0123456789abcdef".data.getD n '0'

/-- Model of `appendEscapedASCII` of `jsonwire` restricted to the characters
the default flags escape: the quote, the backslash and the control characters
below U+0020; every other character is copied. -/
def appendEscaped (c : Char) : List Char :=
  if c = '"' ∨ c = '\\' then ['\\', c]
  else if c = '\x08' then ['\\', 'b']
  else if c = '\x0c' then ['\\', 'f']
  else if c = '\n' then ['\\', 'n']
  else if c = '\r' then ['\\', 'r']
  else if c = '\t' then ['\\', 't']
  else if c.toNat < 0x20 then ['\\', 'u', '0', '0', hexDigit (c.toNat / 16), hexDigit (c.toNat % 16)]
  else [c]

/-- Model of `jsonwire.AppendQuote` under the default flags, on valid UTF-8:
the text between double quotes, escaped character by character. -/
def AppendQuote (s : String) : String :=
  "\"" ++ String.mk (s.data.map appendEscaped).flatten ++ "\""

/-- Whether `c` is a hexadecimal digit. -/
def isHex (c : Char) : Bool :=
  c.isDigit || ('a' ≤ c && c ≤ 'f') || ('A' ≤ c && c ≤ 'F')

/-- Scan a JSON string literal after its opening quote: the rest of the input
after the closing quote, or `none` when the literal is malformed (a raw control
character, a bad escape, or no closing quote). -/
def consumeStringBody : List Char → Option (List Char)
  | [] => none
  | '"' :: rest => some rest
  | '\\' :: 'u' :: h1 :: h2 :: h3 :: h4 :: rest =>
    if isHex h1 && isHex h2 && isHex h3 && isHex h4 then consumeStringBody rest else none
  | '\\' :: c :: rest =>
    if c ∈ ['"', '\\', '/', 'b', 'f', 'n', 'r', 't'] then consumeStringBody rest else none
  | c :: rest => if c.toNat < 0x20 then none else consumeStringBody rest

/-- Whether the text is exactly one JSON string literal. -/
def isJSONString (s : String) : Bool :=
  match s.data with
  | '"' :: body => consumeStringBody body == some []
  | _ => false

/-- Model of `(*jsontext.Encoder).WriteValue` on what a marshal function
returned.  No bytes are not a JSON value (`unexpected EOF`).  The functions
registered by `cmd/main.go` return either no bytes or a double-quoted text, so
string literals are the only values recognised here. -/
def WriteValue (val : Option String) : Except String String :=
  match val with
  | none => .error "jsontext: unexpected EOF"
  | some v =>
    if v.data = [] then .error "jsontext: unexpected EOF"
    else if isJSONString v then .ok v
    else .error "jsontext: invalid value"

/-! ## `encoding/json/v2`: options and type-specific marshalers -/

/-- One entry of a `*Marshalers`: the type `T` the function was declared for
and the function, taking the value already cast to `T`. -/
structure typedMarshaler where
  typ : GoType
  fnc : GoValue → Call

/-- Model of `*json.Marshalers`: the list of typed functions. -/
structure Marshalers where
  fncVals : List typedMarshaler

/-- Model of `json.MarshalFunc[T]`: a `Marshalers` with the single function,
keyed by its parameter type `T`. -/
def MarshalFunc (T : GoType) (fn : GoValue → Call) : Marshalers :=
  ⟨[⟨T, fn⟩]⟩

/-- Declaration `timeRFC3339` of `cmd/main.go`: `T` is `time.Time`. -/
def timeRFC3339 : Marshalers :=
  MarshalFunc .time (fun v =>
    match v with
    | .time t => timeRFC3339Func t
    | _ => .panicked "interface conversion")

/-- Declaration `bigFloatAsString` of `cmd/main.go`: `T` is `any`. -/
def bigFloatAsString : Marshalers :=
  MarshalFunc .any bigFloatAsStringFunc

/-- The options `cmd/main.go` passes to `json.Marshal`. -/
inductive Options
  | StringifyNumbers (v : Bool)
  | WithMarshalers (m : Marshalers)
  | OmitZeroStructFields (v : Bool)

/-- Model of `jsonopts.Struct`, the options after joining; the zero value is
the default configuration. -/
structure Struct where
  stringifyNumbers : Bool
  omitZeroStructFields : Bool
  marshalers : Option Marshalers

/-- The default configuration. -/
def Struct.zero : Struct := ⟨false, false, none⟩

/-- Model of `(*jsonopts.Struct).Join`: the options are applied left to right
and each one assigns its property, so a property set by a later option
replaces the value an earlier option gave it.  `WithMarshalers` assigns the
whole `Marshalers` property. -/
def Struct.Join (dst : Struct) : List Options → Struct
  | [] => dst
  | .StringifyNumbers v :: rest =>
    Struct.Join ⟨v, dst.omitZeroStructFields, dst.marshalers⟩ rest
  | .WithMarshalers m :: rest =>
    Struct.Join ⟨dst.stringifyNumbers, dst.omitZeroStructFields, some m⟩ rest
  | .OmitZeroStructFields v :: rest =>
    Struct.Join ⟨dst.stringifyNumbers, v, dst.marshalers⟩ rest

/-- Model of `castableTo(from, to)`: a value of type `src` can be handed to a
function declared for `target`.  For an interface `target` the test is whether
`*src` implements it, which every type does for `any`; for a pointer `target`
whether `*src` is `target`; otherwise whether the types are equal. -/
def castableTo (src target : GoType) : Bool :=
  match target with
  | .any => true
  | .pointer elem => src == elem
  | _ => src == target

/-- Model of `addressableValue.castTo`: a function declared for an interface
or pointer type receives the address of the value, any other the value. -/
def castTo (va : GoValue) (target : GoType) : GoValue :=
  match target with
  | .any => .pointerTo va
  | .pointer _ => .pointerTo va
  | _ => va

/-- Model of `(*Marshalers).lookup`: the first function whose type the value
can be cast to.  Functions built by `MarshalFunc` cannot skip, so no later
function is consulted. -/
def Marshalers.lookup (a : Marshalers) (t : GoType) : Option typedMarshaler :=
  a.fncVals.find? (fun m => castableTo t m.typ)

/-- How `json.Marshal` can fail: it returns an error or it panics. -/
inductive Failure
  | error (msg : String)
  | panic (msg : String)
deriving DecidableEq, Repr

/-- Model of the closure `MarshalFunc` builds around the user function: call it
on the cast value; a returned error fails the encoding; otherwise the returned
bytes are written with `WriteValue`. -/
def typedMarshaler.call (m : typedMarshaler) (va : GoValue) : Except Failure String :=
  match m.fnc (castTo va m.typ) with
  | .panicked msg => .error (.panic msg)
  | .returned ⟨_, some err⟩ => .error (.error ("json: cannot marshal: " ++ err))
  | .returned ⟨val, none⟩ =>
    match WriteValue val with
    | .ok out => .ok out
    | .error e => .error (.error ("json: cannot marshal: " ++ e))

/-- Marshal one value of static type `t`: a registered function the value can
be cast to replaces the built-in encoding `dflt`. -/
def marshalAt (mo : Struct) (t : GoType) (va : GoValue) (dflt : Except Failure String) :
    Except Failure String :=
  match mo.marshalers.bind (fun a => a.lookup t) with
  | some m => m.call va
  | none => dflt

/-! ## `encoding/json/v2`: the built-in encodings -/

/-- Whether `year` is a leap year of the proleptic Gregorian calendar. -/
def isLeap (year : Int) : Bool :=
  year % 4 == 0 && (year % 100 != 0 || year % 400 == 0)

/-- Days of a common year before the first of `month`. -/
def daysBefore (month : Nat) : Nat :=
  [0, 31, 59, 90, 120, 151, 181, 212, 243, 273, 304, 334].getD (month - 1) 0

/-- Days from 0001-01-01 to the given date. -/
def daysSinceYearOne (year : Int) (month day : Nat) : Int :=
  let y := year - 1
  365 * y + y / 4 - y / 100 + y / 400 + daysBefore month +
    (if 2 < month ∧ isLeap year then 1 else 0) + day - 1

/-- Model of `Time.IsZero`: the value is the instant 0001-01-01 00:00:00 UTC. -/
def Time.IsZero (t : Time) : Bool :=
  decide (daysSinceYearOne t.year t.month t.day * 86400 + t.hour * 3600 + t.minute * 60 +
    t.second - t.offset = 0) && t.nanosecond == 0

/-- Model of `parseDec2`: the number written by the first two digits. -/
def parseDec2 (b : List Char) : Nat :=
  match b with
  | d1 :: d2 :: _ => 10 * (d1.toNat - '0'.toNat) + (d2.toNat - '0'.toNat)
  | _ => 0

/-- Model of the encoder's built-in encoding of a `time.Time`: the
`RFC3339Nano` text as a JSON string, refused when the year is not four digits
wide or the zone hour is above 23. -/
def marshalTime (t : Time) : Except Failure String :=
  let b := (t.Format .RFC3339Nano).data
  if b[4]? ≠ some '-' then
    .error (.error "json: cannot marshal from Go time.Time: year outside of range [0,9999]")
  else if b.getLast? ≠ some 'Z' ∧
      ((b[b.length - 6]?.any Char.isDigit) ∨ 24 ≤ parseDec2 (b.drop (b.length - 5))) then
    .error (.error "json: cannot marshal from Go time.Time: timezone hour outside of range [0,23]")
  else .ok ("\"" ++ String.mk b ++ "\"")

/-- Model of the built-in encoding of an `int`: the decimal literal, between
quotes when `StringifyNumbers` is on. -/
def marshalInt (mo : Struct) (n : Int) : String :=
  if mo.stringifyNumbers then "\"" ++ n.repr ++ "\"" else n.repr

/-- Model of `(*big.Float).MarshalText` on a non-nil receiver. -/
def BigFloat.MarshalText (f : BigFloat) : String := f.shortest

/-- Model of the built-in encoding of a `big.Float`: it implements
`encoding.TextMarshaler`, so its text is written as a JSON string. -/
def marshalBigFloat (f : BigFloat) : String :=
  AppendQuote f.MarshalText

/-- The built-in encoding of a `*big.Float` when no function is registered:
`null` for nil, else the text of the pointee as a JSON string. -/
def nullOrQuoted (v : Option BigFloat) : String :=
  match v with
  | none => "null"
  | some f => marshalBigFloat f

/-- The `*big.Float` field as a Go value. -/
def pointerValue (v : Option BigFloat) : GoValue :=
  match v with
  | none => .nilPointer .bigFloat
  | some f => .pointerTo (.bigFloat f)

/-- Model of the built-in encoding of a `*big.Float`: `null` for nil, else the
pointee, for which a registered function is looked up again. -/
def marshalBigFloatPointer (mo : Struct) (v : Option BigFloat) : Except Failure String :=
  match v with
  | none => .ok "null"
  | some f => marshalAt mo .bigFloat (.bigFloat f) (.ok (marshalBigFloat f))

/-- One field of the struct being encoded: its JSON name, its type, its value,
whether the value is zero, and its built-in encoding. -/
structure structField where
  name : String
  typ : GoType
  value : GoValue
  isZero : Bool
  dflt : Except Failure String

/-- The fields of `Payload` in declaration order, named by their `json` tags. -/
def Payload.fields (mo : Struct) (p : Payload) : List structField :=
  [⟨"id", .int, .int p.ID, p.ID == 0, .ok (marshalInt mo p.ID)⟩,
   ⟨"timestamp", .time, .time p.Timestamp, p.Timestamp.IsZero, marshalTime p.Timestamp⟩,
   ⟨"value", .pointer .bigFloat, pointerValue p.Value, p.Value.isNone,
     marshalBigFloatPointer mo p.Value⟩,
   ⟨"message", .string, .string p.Message, p.Message == "", .ok (AppendQuote p.Message)⟩]

/-- Model of the struct encoder's loop: a zero field is skipped when
`OmitZeroStructFields` is on; every other field is marshalled, by a registered
function when one applies to its type; the first failure ends the encoding. -/
def marshalMembers (mo : Struct) : List structField → Except Failure (List (String × String))
  | [] => .ok []
  | f :: rest =>
    if mo.omitZeroStructFields && f.isZero then marshalMembers mo rest
    else
      match marshalAt mo f.typ f.value f.dflt with
      | .error e => .error e
      | .ok v =>
        match marshalMembers mo rest with
        | .error e => .error e
        | .ok vs => .ok ((f.name, v) :: vs)

/-- The text of a JSON object with the given members. -/
def renderObject (members : List (String × String)) : String :=
  "\x7b" ++ ",".intercalate (members.map (fun m => AppendQuote m.1 ++ ":" ++ m.2)) ++ "\x7d"

/-- Model of the built-in encoding of a `Payload`. -/
def marshalStruct (mo : Struct) (p : Payload) : Except Failure String :=
  match marshalMembers mo (p.fields mo) with
  | .error e => .error e
  | .ok members => .ok (renderObject members)

/-- Model of `json.Marshal` called on a `Payload`: join the options, then
marshal the value itself like any other value, so a registered function that
applies to `Payload` replaces the struct encoding. -/
def Marshal (p : Payload) (opts : List Options) : Except Failure String :=
  let mo := Struct.zero.Join opts
  marshalAt mo .payload (.payload p) (marshalStruct mo p)

/-! ## `net/http` -/

/-- The response headers, one value per key. -/
abbrev Header := List (String × String)

/-- Model of `Header.Del`. -/
def Header.Del (h : Header) (key : String) : Header :=
  h.filter (fun kv => kv.1 != key)

/-- Model of `Header.Set`: the key holds the single new value. -/
def Header.Set (h : Header) (key value : String) : Header :=
  Header.Del h key ++ [(key, value)]

/-- Model of `Header.Get`: the value of the key, empty when absent. -/
def Header.Get (h : Header) (key : String) : String :=
  ((h.find? (fun kv => kv.1 == key)).map Prod.snd).getD ""

/-- The state of an `http.ResponseWriter`: the header map, the status line
once written (the code and the headers sent with it), and the body so far. -/
structure ResponseWriter where
  header : Header
  wroteHeader : Option (Nat × Header)
  body : String
deriving DecidableEq, Repr

/-- A response nothing has been written to. -/
def ResponseWriter.fresh : ResponseWriter := ⟨[], none, ""⟩

/-- Model of `WriteHeader`: the first call fixes the status code and the
headers that go out; later calls change nothing. -/
def ResponseWriter.WriteHeader (w : ResponseWriter) (code : Nat) : ResponseWriter :=
  match w.wroteHeader with
  | some _ => w
  | none => ⟨w.header, some (code, w.header), w.body⟩

/-- Model of `Write`: writes the header with status 200 if none was written,
then appends the data to the body. -/
def ResponseWriter.Write (w : ResponseWriter) (data : String) : ResponseWriter :=
  let w1 := w.WriteHeader 200
  ⟨w1.header, w1.wroteHeader, w1.body ++ data⟩

/-- The constant `http.StatusInternalServerError`. -/
def StatusInternalServerError : Nat := 500

/-- Model of `http.Error`: drops `Content-Length`, sets the plain-text content
type and `nosniff`, writes the status code, then prints the message and a
newline. -/
def Error (w : ResponseWriter) (error : String) (code : Nat) : ResponseWriter :=
  let h := ((Header.Del w.header "Content-Length").Set "Content-Type"
    "text/plain; charset=utf-8").Set "X-Content-Type-Options" "nosniff"
  (ResponseWriter.WriteHeader ⟨h, w.wroteHeader, w.body⟩ code).Write (error ++ "\n")

/-- The request; the handlers never read it. -/
structure Request where
  method : String
  url : String
deriving DecidableEq, Repr

/-! ## The handlers of `cmd/main.go` -/

/-- The record built by `defaultHandler`, `now` being the result of `time.Now()`. -/
def defaultPayload (now : Time) : Payload :=
  ⟨1, now, some (NewFloat "12345.6789"), "default encoding"⟩

/-- The options `defaultHandler` passes. -/
def defaultOptions : List Options :=
  [.StringifyNumbers false]

/-- The record built by `customHandler`. -/
def customPayload (now : Time) : Payload :=
  ⟨2, now, some (NewFloat "98765.4321"), "custom encoding"⟩

/-- The options `customHandler` passes, in the order of the call. -/
def customOptions : List Options :=
  [.WithMarshalers timeRFC3339, .WithMarshalers bigFloatAsString, .OmitZeroStructFields true]

/-- The part both handlers share after `json.Marshal`: on an error the
`http.Error` reply and return; otherwise the JSON content type and the data.
A panic of `Marshal` leaves the handler without a reply (`.error`). -/
def respond (result : Except Failure String) (w : ResponseWriter) : Except String ResponseWriter :=
  match result with
  | .error (.panic msg) => .error msg
  | .error (.error err) => .ok (Error w err StatusInternalServerError)
  | .ok data =>
    .ok (ResponseWriter.Write ⟨w.header.Set "Content-Type" "application/json", w.wroteHeader, w.body⟩
      data)

/-- Function `defaultHandler`, `cmd/main.go` lines 30-39. -/
def defaultHandler (now : Time) (w : ResponseWriter) (_r : Request) : Except String ResponseWriter :=
  respond (Marshal (defaultPayload now) defaultOptions) w

/-- Function `customHandler`, `cmd/main.go` lines 41-55. -/
def customHandler (now : Time) (w : ResponseWriter) (_r : Request) : Except String ResponseWriter :=
  respond (Marshal (customPayload now) customOptions) w

/-! ## Predicates and readers used to state the properties -/

/-- A character the encoder copies unescaped into a string literal. -/
def plainChar (c : Char) : Bool :=
  c != '"' && c != '\\' && decide (0x20 ≤ c.toNat)

/-- Every character of the text is copied unescaped. -/
def allPlain (s : String) : Prop :=
  ∀ c ∈ s.data, plainChar c = true

/-- The header of a successful reply. -/
def jsonHeader : Header := [("Content-Type", "application/json")]

/-- The header `http.Error` leaves. -/
def errorHeader : Header :=
  [("Content-Type", "text/plain; charset=utf-8"), ("X-Content-Type-Options", "nosniff")]

/-- Read a member name after its opening quote: the characters up to the
closing quote and the input after it; names with escapes are refused. -/
def readName : List Char → Option (List Char × List Char)
  | [] => none
  | '"' :: rest => some ([], rest)
  | '\\' :: _ => none
  | c :: rest => (readName rest).map (fun r => (c :: r.1, r.2))

/-- Skip one member value: a string literal, or a bare token (a number or
`null`) up to the next comma or closing brace. -/
def skipValue : List Char → Option (List Char)
  | '"' :: rest => consumeStringBody rest
  | l => some (l.dropWhile (fun c => c != ',' && c != '\x7d'))

/-- The member names of the text after the opening brace of an object whose
values are strings and bare tokens, in order of appearance. -/
def memberNamesAux : Nat → List Char → Option (List String)
  | 0, _ => none
  | fuel + 1, '"' :: body =>
    match readName body with
    | some (name, ':' :: value) =>
      match skipValue value with
      | some (',' :: more) =>
        (memberNamesAux fuel more).map (fun names => String.mk name :: names)
      | some ['\x7d'] => some [String.mk name]
      | _ => none
    | _ => none
  | _ + 1, _ => none

/-- The member names of a JSON object, in order of appearance. -/
def objectMemberNames (out : String) : Option (List String) :=
  match out.data with
  | ['\x7b', '\x7d'] => some []
  | '\x7b' :: rest => memberNamesAux rest.length rest
  | _ => none

/-- A text that `skipValue` passes over entirely when a comma or a closing
brace follows. -/
def isValueText (v : List Char) : Prop :=
  ∀ sep rest, sep = ',' ∨ sep = '\x7d' → skipValue (v ++ sep :: rest) = some (sep :: rest)

/-- A character of a bare token. -/
def tokenChar (c : Char) : Bool :=
  c != ',' && c != '\x7d' && c != '"'

/-! ## Lemmas -/

theorem digitChar_plain (k : Nat) (h : k < 10) : plainChar (Nat.digitChar k) = true := by
  interval_cases k <;> decide

theorem toDigitsCore_plain (fuel : Nat) : ∀ (n : Nat) (ds : List Char),
    (∀ c ∈ ds, plainChar c = true) → ∀ c ∈ Nat.toDigitsCore 10 fuel n ds, plainChar c = true := by
  induction fuel with
  | zero => intro n ds h; simpa [Nat.toDigitsCore] using h
  | succ fuel ih =>
    intro n ds h
    have hd : plainChar (Nat.digitChar (n % 10)) = true :=
      digitChar_plain _ (Nat.mod_lt _ (by decide))
    have hcons : ∀ c ∈ Nat.digitChar (n % 10) :: ds, plainChar c = true := by
      intro c hc
      rcases List.mem_cons.mp hc with rfl | hc
      · exact hd
      · exact h c hc
    simp only [Nat.toDigitsCore]
    split
    · exact hcons
    · exact ih _ _ hcons

theorem repr_plain (n : Nat) : ∀ c ∈ (Nat.repr n).data, plainChar c = true := by
  have := toDigitsCore_plain (n + 1) n [] (by simp)
  simpa [Nat.repr, Nat.toDigits, List.asString] using this

theorem allPlain_append {a b : String} (ha : allPlain a) (hb : allPlain b) :
    allPlain (a ++ b) := by
  intro c hc
  rw [String.data_append, List.mem_append] at hc
  rcases hc with hc | hc
  · exact ha c hc
  · exact hb c hc

theorem appendInt_plain (x : Int) (width : Nat) : allPlain (appendInt x width) := by
  unfold appendInt
  refine allPlain_append (allPlain_append ?_ ?_) (repr_plain _)
  · split
    · intro c hc; simp at hc; subst hc; decide
    · intro c hc; simp at hc
  · intro c hc
    simp only [List.mem_replicate] at hc
    rw [hc.2]; decide

theorem appendZone_plain (offset : Int) : allPlain (appendZone offset) := by
  unfold appendZone
  split
  · intro c hc; simp at hc; subst hc; decide
  · refine allPlain_append (allPlain_append (allPlain_append ?_ (appendInt_plain _ _)) ?_)
      (appendInt_plain _ _)
    · split <;> (intro c hc; simp at hc; subst hc; decide)
    · intro c hc; simp at hc; subst hc; decide

theorem format_RFC3339_plain (t : Time) : allPlain (t.Format .RFC3339) := by
  have hdash : allPlain "-" := by intro c hc; simp at hc; subst hc; decide
  have hT : allPlain "T" := by intro c hc; simp at hc; subst hc; decide
  have hcolon : allPlain ":" := by intro c hc; simp at hc; subst hc; decide
  have hempty : allPlain "" := by intro c hc; simp at hc
  simp only [Time.Format]
  exact allPlain_append (allPlain_append (allPlain_append (allPlain_append (allPlain_append
    (allPlain_append (allPlain_append (allPlain_append (allPlain_append (allPlain_append
    (allPlain_append (allPlain_append (appendInt_plain _ _) hdash) (appendInt_plain _ _)) hdash)
    (appendInt_plain _ _)) hT) (appendInt_plain _ _)) hcolon) (appendInt_plain _ _)) hcolon)
    (appendInt_plain _ _)) hempty) (appendZone_plain _)

theorem appendEscaped_plain (c : Char) (h : plainChar c = true) : appendEscaped c = [c] := by
  simp only [plainChar, Bool.and_eq_true, bne_iff_ne, ne_eq, decide_eq_true_eq] at h
  obtain ⟨⟨h1, h2⟩, h3⟩ := h
  have h8 : c ≠ '\x08' := by rintro rfl; revert h3; decide
  have hc : c ≠ '\x0c' := by rintro rfl; revert h3; decide
  have hn : c ≠ '\n' := by rintro rfl; revert h3; decide
  have hr : c ≠ '\r' := by rintro rfl; revert h3; decide
  have ht : c ≠ '\t' := by rintro rfl; revert h3; decide
  simp [appendEscaped, h1, h2, h8, hc, hn, hr, ht, Nat.not_lt.mpr h3]

theorem consumeStringBody_cons_plain (c : Char) (l : List Char) (h : plainChar c = true) :
    consumeStringBody (c :: l) = consumeStringBody l := by
  simp only [plainChar, Bool.and_eq_true, bne_iff_ne, ne_eq, decide_eq_true_eq] at h
  obtain ⟨⟨h1, h2⟩, h3⟩ := h
  rw [consumeStringBody]
  · simp [Nat.not_lt.mpr h3]
  all_goals (intros; simp_all)

theorem consumeStringBody_plain (l rest : List Char) (h : ∀ c ∈ l, plainChar c = true) :
    consumeStringBody (l ++ '"' :: rest) = some rest := by
  induction l with
  | nil => simp [consumeStringBody]
  | cons c l ih =>
    rw [List.cons_append, consumeStringBody_cons_plain c _ (h c (List.mem_cons_self _ _))]
    exact ih (fun d hd => h d (List.mem_cons_of_mem _ hd))

theorem isJSONString_quoted_plain (s : String) (h : allPlain s) :
    isJSONString ("\"" ++ s ++ "\"") = true := by
  have hd : ("\"" ++ s ++ "\"").data = '"' :: (s.data ++ '"' :: []) := by
    simp [String.data_append]
  simp only [isJSONString, hd, consumeStringBody_plain s.data [] h, beq_self_eq_true]

theorem AppendQuote_plain (s : String) (h : allPlain s) : AppendQuote s = "\"" ++ s ++ "\"" := by
  have hmap : (s.data.map appendEscaped).flatten = s.data := by
    have : ∀ l : List Char, (∀ c ∈ l, plainChar c = true) →
        (l.map appendEscaped).flatten = l := by
      intro l
      induction l with
      | nil => intro _; rfl
      | cons c l ih =>
        intro hl
        simp only [List.map_cons, List.flatten_cons,
          appendEscaped_plain c (hl c (List.mem_cons_self _ _)),
          ih (fun d hd => hl d (List.mem_cons_of_mem _ hd)), List.singleton_append]
    exact this _ h
  simp [AppendQuote, hmap]

theorem respond_fresh_ok (data : String) :
    respond (.ok data) .fresh = .ok ⟨jsonHeader, some (200, jsonHeader), data⟩ := by
  simp [respond, ResponseWriter.fresh, ResponseWriter.Write, ResponseWriter.WriteHeader,
    Header.Set, Header.Del, jsonHeader]

theorem respond_fresh_error (err : String) :
    respond (.error (.error err)) .fresh =
      .ok ⟨errorHeader, some (500, errorHeader), err ++ "\n"⟩ := by
  simp [respond, Error, ResponseWriter.fresh, ResponseWriter.Write, ResponseWriter.WriteHeader,
    Header.Set, Header.Del, StatusInternalServerError, errorHeader]

theorem respond_fresh_panic (msg : String) :
    respond (.error (.panic msg)) .fresh = .error msg := rfl

theorem join_defaultOptions : Struct.zero.Join defaultOptions = ⟨false, false, none⟩ := rfl

theorem join_customOptions :
    Struct.zero.Join customOptions = ⟨false, true, some bigFloatAsString⟩ := rfl

theorem marshal_custom (p : Payload) :
    Marshal p customOptions = .error (.error "json: cannot marshal: jsontext: unexpected EOF") := by
  rfl


theorem marshalMembers_default (fs : List structField) :
    marshalMembers ⟨false, false, none⟩ fs =
      match fs with
      | [] => .ok []
      | f :: rest =>
        match f.dflt with
        | .error e => .error e
        | .ok v =>
          match marshalMembers ⟨false, false, none⟩ rest with
          | .error e => .error e
          | .ok vs => .ok ((f.name, v) :: vs) := by
  cases fs with
  | nil => rfl
  | cons f rest =>
    rw [marshalMembers]
    simp only [Bool.false_and, Bool.false_eq_true, if_false, marshalAt, Option.bind]

theorem marshal_default (p : Payload) :
    Marshal p defaultOptions =
      match marshalTime p.Timestamp with
      | .error e => .error e
      | .ok ts =>
        .ok (renderObject [("id", p.ID.repr), ("timestamp", ts),
          ("value", nullOrQuoted p.Value), ("message", AppendQuote p.Message)]) := by
  unfold Marshal
  rw [join_defaultOptions]
  unfold marshalAt marshalStruct Payload.fields
  simp only [Option.bind]
  rw [marshalMembers_default]
  simp only []
  rw [marshalMembers_default]
  simp only []
  cases marshalTime p.Timestamp with
  | error e => rfl
  | ok ts =>
    simp only []
    rw [marshalMembers_default]
    simp only []
    cases hv : p.Value with
    | none => rfl
    | some f => rfl

theorem marshalTime_ok (t : Time) (ts : String) (h : marshalTime t = .ok ts) :
    ts = "\"" ++ t.Format .RFC3339Nano ++ "\"" := by
  unfold marshalTime at h
  simp only [] at h
  split at h
  · cases h
  · split at h
    · cases h
    · injection h with h
      rw [← h]

theorem renderObject_payload (v1 v2 v3 v4 : String) :
    renderObject [("id", v1), ("timestamp", v2), ("value", v3), ("message", v4)] =
      "\x7b\"id\":" ++ v1 ++ ",\"timestamp\":" ++ v2 ++ ",\"value\":" ++ v3 ++
        ",\"message\":" ++ v4 ++ "\x7d" := by
  have h1 : AppendQuote "id" = "\"id\"" := by decide
  have h2 : AppendQuote "timestamp" = "\"timestamp\"" := by decide
  have h3 : AppendQuote "value" = "\"value\"" := by decide
  have h4 : AppendQuote "message" = "\"message\"" := by decide
  simp only [renderObject, List.map, h1, h2, h3, h4, String.intercalate, String.intercalate.go]
  apply String.ext
  simp [String.data_append]

theorem quoted_ne_empty (s : String) : "\"" ++ s ++ "\"" ≠ "" := by
  intro h
  have := congrArg String.data h
  simp [String.data_append] at this

theorem isHex_hexDigit (k : Nat) (h : k < 16) : isHex (hexDigit k) = true := by
  interval_cases k <;> decide

theorem consumeStringBody_escaped_cons (c : Char) (tail : List Char) :
    consumeStringBody (appendEscaped c ++ tail) = consumeStringBody tail := by
  unfold appendEscaped
  split
  · rename_i h
    rcases h with rfl | rfl <;> simp [consumeStringBody]
  · split
    · simp [consumeStringBody]
    · split
      · simp [consumeStringBody]
      · split
        · simp [consumeStringBody]
        · split
          · simp [consumeStringBody]
          · split
            · simp [consumeStringBody]
            · split
              · rename_i h
                have h1 : isHex (hexDigit (c.toNat / 16)) = true :=
                  isHex_hexDigit _ (by omega)
                have h2 : isHex (hexDigit (c.toNat % 16)) = true :=
                  isHex_hexDigit _ (Nat.mod_lt _ (by decide))
                have h0 : isHex '0' = true := by decide
                simp [consumeStringBody, h0, h1, h2]
              · rename_i hq _ _ _ _ _ hlt
                have hp : plainChar c = true := by
                  simp only [plainChar, Bool.and_eq_true, bne_iff_ne, ne_eq, decide_eq_true_eq]
                  exact ⟨⟨fun h => hq (Or.inl h), fun h => hq (Or.inr h)⟩, Nat.not_lt.mp hlt⟩
                exact consumeStringBody_cons_plain c tail hp

theorem consumeStringBody_escaped (l rest : List Char) :
    consumeStringBody ((l.map appendEscaped).flatten ++ '"' :: rest) = some rest := by
  induction l with
  | nil => simp [consumeStringBody]
  | cons c l ih =>
    rw [List.map_cons, List.flatten_cons, List.append_assoc, consumeStringBody_escaped_cons]
    exact ih

theorem dropWhile_token (tok : List Char) (sep : Char) (rest : List Char)
    (h : ∀ c ∈ tok, tokenChar c = true) (hsep : sep = ',' ∨ sep = '\x7d') :
    (tok ++ sep :: rest).dropWhile (fun c => c != ',' && c != '\x7d') = sep :: rest := by
  induction tok with
  | nil => rcases hsep with rfl | rfl <;> simp [List.dropWhile]
  | cons c tok ih =>
    have hc := h c (List.mem_cons_self _ _)
    simp only [tokenChar, Bool.and_eq_true] at hc
    rw [List.cons_append, List.dropWhile_cons]
    simp only [hc.1.1, hc.1.2, Bool.and_self, if_true]
    exact ih (fun d hd => h d (List.mem_cons_of_mem _ hd))

theorem isValueText_token (tok : List Char) (h : ∀ c ∈ tok, tokenChar c = true) :
    isValueText tok := by
  intro sep rest hsep
  have hd := dropWhile_token tok sep rest h hsep
  cases tok with
  | nil =>
    rcases hsep with rfl | rfl <;> simp [skipValue]
  | cons c tok =>
    have hc := h c (List.mem_cons_self _ _)
    simp only [tokenChar, Bool.and_eq_true, bne_iff_ne, ne_eq] at hc
    rw [List.cons_append] at hd ⊢
    rw [skipValue]
    · rw [hd]
    · intro rest' hr
      exact hc.2 (List.cons.inj hr).1

theorem isValueText_quoted (body : List Char)
    (h : ∀ rest, consumeStringBody (body ++ '"' :: rest) = some rest) :
    isValueText ('"' :: (body ++ ['"'])) := by
  intro sep rest _
  simp only [List.cons_append, List.append_assoc, List.singleton_append, skipValue]
  exact h _

theorem digitChar_token (k : Nat) (h : k < 10) : tokenChar (Nat.digitChar k) = true := by
  interval_cases k <;> decide

theorem toDigitsCore_token (fuel : Nat) : ∀ (n : Nat) (ds : List Char),
    (∀ c ∈ ds, tokenChar c = true) → ∀ c ∈ Nat.toDigitsCore 10 fuel n ds, tokenChar c = true := by
  induction fuel with
  | zero => intro n ds h; simpa [Nat.toDigitsCore] using h
  | succ fuel ih =>
    intro n ds h
    have hcons : ∀ c ∈ Nat.digitChar (n % 10) :: ds, tokenChar c = true := by
      intro c hc
      rcases List.mem_cons.mp hc with rfl | hc
      · exact digitChar_token _ (Nat.mod_lt _ (by decide))
      · exact h c hc
    simp only [Nat.toDigitsCore]
    split
    · exact hcons
    · exact ih _ _ hcons

theorem natRepr_token (n : Nat) : ∀ c ∈ (Nat.repr n).data, tokenChar c = true := by
  have := toDigitsCore_token (n + 1) n [] (by simp)
  simpa [Nat.repr, Nat.toDigits, List.asString] using this

theorem intRepr_token (n : Int) : ∀ c ∈ (Int.repr n).data, tokenChar c = true := by
  cases n with
  | ofNat m => exact natRepr_token m
  | negSucc m =>
    intro c hc
    simp only [Int.repr, String.data_append, List.mem_append] at hc
    rcases hc with hc | hc
    · simp at hc; subst hc; decide
    · exact natRepr_token _ c hc

theorem trimZeros_subset (l : List Char) : ∀ c ∈ trimZeros l, c ∈ l := by
  intro c hc
  unfold trimZeros at hc
  rw [List.mem_reverse] at hc
  exact List.mem_reverse.mp ((List.dropWhile_sublist _).subset hc)

theorem appendNano_plain (n : Nat) : allPlain (appendNano n) := by
  unfold appendNano
  split
  · intro c hc; simp at hc
  · refine allPlain_append ?_ ?_
    · intro c hc; simp at hc; subst hc; decide
    · intro c hc
      exact appendInt_plain _ _ c (trimZeros_subset _ c hc)

theorem format_RFC3339Nano_plain (t : Time) : allPlain (t.Format .RFC3339Nano) := by
  have hdash : allPlain "-" := by intro c hc; simp at hc; subst hc; decide
  have hT : allPlain "T" := by intro c hc; simp at hc; subst hc; decide
  have hcolon : allPlain ":" := by intro c hc; simp at hc; subst hc; decide
  simp only [Time.Format]
  exact allPlain_append (allPlain_append (allPlain_append (allPlain_append (allPlain_append
    (allPlain_append (allPlain_append (allPlain_append (allPlain_append (allPlain_append
    (allPlain_append (allPlain_append (appendInt_plain _ _) hdash) (appendInt_plain _ _)) hdash)
    (appendInt_plain _ _)) hT) (appendInt_plain _ _)) hcolon) (appendInt_plain _ _)) hcolon)
    (appendInt_plain _ _)) (appendNano_plain _)) (appendZone_plain _)

theorem isValueText_AppendQuote (s : String) : isValueText (AppendQuote s).data := by
  have hd : (AppendQuote s).data = '"' :: ((s.data.map appendEscaped).flatten ++ ['"']) := by
    simp [AppendQuote, String.data_append]
  rw [hd]
  exact isValueText_quoted _ (fun rest => consumeStringBody_escaped _ rest)

theorem isValueText_quoted_plain (s : String) (h : allPlain s) :
    isValueText ("\"" ++ s ++ "\"").data := by
  have hd : ("\"" ++ s ++ "\"").data = '"' :: (s.data ++ ['"']) := by
    simp [String.data_append]
  rw [hd]
  exact isValueText_quoted _ (fun rest => consumeStringBody_plain _ rest h)

theorem readName_plain (name rest : List Char)
    (h : ∀ c ∈ name, c ≠ '"' ∧ c ≠ '\\') :
    readName (name ++ '"' :: rest) = some (name, rest) := by
  induction name with
  | nil => simp [readName]
  | cons c name ih =>
    have hc := h c (List.mem_cons_self _ _)
    rw [List.cons_append, readName]
    · rw [ih (fun d hd => h d (List.mem_cons_of_mem _ hd))]
      rfl
    · intro hr; exact hc.1 hr
    · intro hr; exact hc.2 hr

theorem memberNamesAux_more (fuel : Nat) (name v more : List Char)
    (hname : ∀ c ∈ name, c ≠ '"' ∧ c ≠ '\\') (hv : isValueText v) :
    memberNamesAux (fuel + 1) ('"' :: (name ++ '"' :: ':' :: (v ++ ',' :: more))) =
      (memberNamesAux fuel more).map (fun names => String.mk name :: names) := by
  rw [memberNamesAux, readName_plain name _ hname]
  simp only [hv ',' more (Or.inl rfl)]

theorem memberNamesAux_last (fuel : Nat) (name v : List Char)
    (hname : ∀ c ∈ name, c ≠ '"' ∧ c ≠ '\\') (hv : isValueText v) :
    memberNamesAux (fuel + 1) ('"' :: (name ++ '"' :: ':' :: (v ++ ['\x7d']))) =
      some [String.mk name] := by
  rw [memberNamesAux, readName_plain name _ hname]
  simp only [hv '\x7d' [] (Or.inr rfl)]

theorem memberNames_payload (v1 v2 v3 v4 : String) (h1 : isValueText v1.data)
    (h2 : isValueText v2.data) (h3 : isValueText v3.data) (h4 : isValueText v4.data) :
    objectMemberNames ("\x7b\"id\":" ++ v1 ++ ",\"timestamp\":" ++ v2 ++ ",\"value\":" ++ v3 ++
        ",\"message\":" ++ v4 ++ "\x7d") = some ["id", "timestamp", "value", "message"] := by
  have hd : ("\x7b\"id\":" ++ v1 ++ ",\"timestamp\":" ++ v2 ++ ",\"value\":" ++ v3 ++
        ",\"message\":" ++ v4 ++ "\x7d").data =
      '\x7b' :: '"' :: ("id".data ++ '"' :: ':' :: (v1.data ++ ',' ::
        ('"' :: ("timestamp".data ++ '"' :: ':' :: (v2.data ++ ',' ::
        ('"' :: ("value".data ++ '"' :: ':' :: (v3.data ++ ',' ::
        ('"' :: ("message".data ++ '"' :: ':' :: (v4.data ++ ['\x7d']))))))))))) := by
    simp [String.data_append]
  have n1 : ∀ c ∈ "id".data, c ≠ '"' ∧ c ≠ '\\' := by decide
  have n2 : ∀ c ∈ "timestamp".data, c ≠ '"' ∧ c ≠ '\\' := by decide
  have n3 : ∀ c ∈ "value".data, c ≠ '"' ∧ c ≠ '\\' := by decide
  have n4 : ∀ c ∈ "message".data, c ≠ '"' ∧ c ≠ '\\' := by decide
  unfold objectMemberNames
  rw [hd]
  show memberNamesAux _ _ = _
  generalize hfuel : List.length _ = fuel
  obtain ⟨k, rfl⟩ : ∃ k, fuel = k + 4 := by
    refine ⟨fuel - 4, ?_⟩
    simp only [List.length_cons, List.length_append] at hfuel
    omega
  rw [memberNamesAux_more _ _ _ _ n1 h1, memberNamesAux_more _ _ _ _ n2 h2,
    memberNamesAux_more _ _ _ _ n3 h3, memberNamesAux_last _ _ _ n4 h4]
  rfl

theorem isValueText_nullOrQuoted (v : Option BigFloat) : isValueText (nullOrQuoted v).data := by
  cases v with
  | none => exact isValueText_token _ (by decide)
  | some f => exact isValueText_AppendQuote _

theorem appendInt_two (k : Nat) (h : k < 100) :
    (appendInt (k : Int) 2).data = [Nat.digitChar (k / 10), Nat.digitChar (k % 10)] := by
  interval_cases k <;> rfl

theorem parseDec2_digits (a b : Nat) (ha : a < 10) (hb : b < 10) (rest : List Char) :
    parseDec2 (Nat.digitChar a :: Nat.digitChar b :: rest) = 10 * a + b := by
  interval_cases a <;> interval_cases b <;> rfl

theorem appendInt_year_length (y : Int) (h0 : 0 ≤ y) (h1 : y ≤ 9999) :
    (appendInt y 4).data.length = 4 := by
  obtain ⟨n, rfl⟩ := Int.eq_ofNat_of_zero_le h0
  have hn : n < 10 ^ 4 := by omega
  have hl : (Nat.repr n).data.length ≤ 4 := Nat.repr_length n 4 (by decide) hn
  have hneg : ¬ ((n : Int) < 0) := by omega
  simp only [appendInt, hneg, if_false, String.data_append, List.length_append,
    List.length_replicate, Int.natAbs_ofNat, String.length]
  have he : ("" : String).data.length = 0 := rfl
  rw [he]
  omega

theorem zone_checks (pre : List Char) (offset : Int) (h0 : offset ≠ 0)
    (hlo : -86400 < offset) (hhi : offset < 86400) :
    ¬ (((pre ++ (appendZone offset).data)[(pre ++ (appendZone offset).data).length - 6]?.any
        Char.isDigit) ∨
      24 ≤ parseDec2 ((pre ++ (appendZone offset).data).drop
        ((pre ++ (appendZone offset).data).length - 5))) := by
  have hk : (offset.tdiv 60).natAbs / 60 < 24 := by
    rw [Int.natAbs_tdiv]
    have : offset.natAbs < 86400 := by omega
    show offset.natAbs / 60 / 60 < 24
    omega
  have hj : (offset.tdiv 60).natAbs % 60 < 100 := by
    have := Nat.mod_lt (offset.tdiv 60).natAbs (show 0 < 60 by decide)
    omega
  obtain ⟨sgn, hsgn, hz⟩ : ∃ sgn : Char, sgn.isDigit = false ∧ (appendZone offset).data =
      sgn :: Nat.digitChar ((offset.tdiv 60).natAbs / 60 / 10) ::
        Nat.digitChar ((offset.tdiv 60).natAbs / 60 % 10) :: ':' ::
        Nat.digitChar ((offset.tdiv 60).natAbs % 60 / 10) ::
        [Nat.digitChar ((offset.tdiv 60).natAbs % 60 % 10)] := by
    unfold appendZone
    simp only [h0, if_false, String.data_append, appendInt_two _ (by omega : (offset.tdiv 60).natAbs / 60 < 100),
      appendInt_two _ hj]
    split
    · exact ⟨'-', by decide, rfl⟩
    · exact ⟨'+', by decide, rfl⟩
  rw [hz]
  have hlen6 : (pre ++ sgn :: Nat.digitChar ((offset.tdiv 60).natAbs / 60 / 10) ::
        Nat.digitChar ((offset.tdiv 60).natAbs / 60 % 10) :: ':' ::
        Nat.digitChar ((offset.tdiv 60).natAbs % 60 / 10) ::
        [Nat.digitChar ((offset.tdiv 60).natAbs % 60 % 10)]).length = pre.length + 6 := by
    simp
  rw [hlen6]
  have e6 : pre.length + 6 - 6 = pre.length := by omega
  have e5 : pre.length + 6 - 5 = pre.length + 1 := by omega
  rw [e6, e5, List.drop_append, List.getElem?_append_right (Nat.le_refl _)]
  simp only [Nat.sub_self, List.getElem?_cons_zero, Option.any_some, hsgn, List.drop_succ_cons,
    List.drop_zero, Bool.false_eq_true, false_or, not_le]
  rw [parseDec2_digits _ _ (by omega) (Nat.mod_lt _ (by decide))]
  omega

/-- For a clock reading with a year in 0..9999 and a zone offset of less than
a day, the built-in time encoding succeeds. -/
theorem marshalTime_succeeds (t : Time) (hy0 : 0 ≤ t.year) (hy1 : t.year ≤ 9999)
    (hlo : -86400 < t.offset) (hhi : t.offset < 86400) :
    marshalTime t = .ok ("\"" ++ t.Format .RFC3339Nano ++ "\"") := by
  obtain ⟨pre, hb⟩ : ∃ pre : List Char, (t.Format .RFC3339Nano).data =
      ((appendInt t.year 4).data ++ '-' :: pre) ++ (appendZone t.offset).data := by
    refine ⟨(appendInt t.month 2 ++ "-" ++ appendInt t.day 2 ++ "T" ++ appendInt t.hour 2 ++ ":" ++
      appendInt t.minute 2 ++ ":" ++ appendInt t.second 2 ++ appendNano t.nanosecond).data, ?_⟩
    simp [Time.Format, String.data_append, List.append_assoc]
  have h4 : (t.Format .RFC3339Nano).data[4]? = some '-' := by
    rw [hb, List.append_assoc,
      List.getElem?_append_right (Nat.le_of_eq (appendInt_year_length _ hy0 hy1)),
      appendInt_year_length _ hy0 hy1]
    simp
  have hzone : ¬ ((t.Format .RFC3339Nano).data.getLast? ≠ some 'Z' ∧
      (((t.Format .RFC3339Nano).data[(t.Format .RFC3339Nano).data.length - 6]?.any
        Char.isDigit) ∨
      24 ≤ parseDec2 ((t.Format .RFC3339Nano).data.drop
        ((t.Format .RFC3339Nano).data.length - 5)))) := by
    by_cases h0 : t.offset = 0
    · intro h
      apply h.1
      rw [hb]
      have hz : (appendZone t.offset).data = ['Z'] := by simp [appendZone, h0]
      rw [hz, List.getLast?_append]
      rfl
    · intro h
      rw [hb] at h
      exact zone_checks _ _ h0 hlo hhi h.2
  unfold marshalTime
  simp only [h4, ne_eq, not_true_eq_false, if_false, hzone]

theorem marshal_defaultPayload (now : Time) (ts : String) (h : marshalTime now = .ok ts) :
    Marshal (defaultPayload now) defaultOptions =
      .ok ("\x7b\"id\":1,\"timestamp\":" ++ ts ++
        ",\"value\":\"12345.6789\",\"message\":\"default encoding\"\x7d") := by
  rw [marshal_default]
  have ht : (defaultPayload now).Timestamp = now := rfl
  rw [ht, h]
  simp only []
  rw [renderObject_payload]
  have h1 : (defaultPayload now).ID.repr = "1" := by rfl
  have h3 : nullOrQuoted (defaultPayload now).Value = "\"12345.6789\"" := by rfl
  have h4 : AppendQuote (defaultPayload now).Message = "\"default encoding\"" := by rfl
  rw [h1, h3, h4]
  have hs : "\x7b\"id\":" ++ "1" ++ ",\"timestamp\":" ++ ts ++ ",\"value\":" ++
      "\"12345.6789\"" ++ ",\"message\":" ++ "\"default encoding\"" ++ "\x7d" =
      "\x7b\"id\":1,\"timestamp\":" ++ ts ++
        ",\"value\":\"12345.6789\",\"message\":\"default encoding\"\x7d" := by
    apply String.ext
    simp [String.data_append]
  rw [hs]

/-! ## The claims -/

/-- C1, the code at every clock reading: under the options of `customHandler`
the encoding of the fixed record returns an error, and the handler answers
with status 500 and the plain-text error line; no JSON object with members
`id`, `timestamp`, `value`, `message` is written. -/
theorem customHandler_replies_500 (now : Time) (r : Request) :
    ∃ err, Marshal (customPayload now) customOptions = .error (.error err) ∧
      customHandler now .fresh r = .ok ⟨errorHeader, some (500, errorHeader), err ++ "\n"⟩ := by
  refine ⟨_, marshal_custom _, ?_⟩
  unfold customHandler
  rw [marshal_custom]
  exact respond_fresh_error _

/-- C2, the failing instance: at the clock reading 2024-03-09 14:05:07.12
-05:00 the body written by `defaultHandler` holds the value member as the
JSON string `"12345.6789"`, not as a bare numeric literal. -/
theorem defaultHandler_value_is_quoted :
    defaultHandler ⟨2024, 3, 9, 14, 5, 7, 120000000, -18000⟩ .fresh ⟨"GET", "/default"⟩ =
      .ok ⟨jsonHeader, some (200, jsonHeader),
        "\x7b\"id\":1,\"timestamp\":\"2024-03-09T14:05:07.12-05:00\",\"value\":\"12345.6789\",\"message\":\"default encoding\"\x7d"⟩ ∧
    defaultHandler ⟨2024, 3, 9, 14, 5, 7, 120000000, -18000⟩ .fresh ⟨"GET", "/default"⟩ ≠
      .ok ⟨jsonHeader, some (200, jsonHeader),
        "\x7b\"id\":1,\"timestamp\":\"2024-03-09T14:05:07.12-05:00\",\"value\":12345.6789,\"message\":\"default encoding\"\x7d"⟩ := by
  refine ⟨rfl, ?_⟩
  intro h
  have hb := congrArg (fun x => x.toOption.map ResponseWriter.body) h
  revert hb
  decide

/-- C2 as amended: for every clock reading `now` whose built-in text form
exists, the body written by `defaultHandler` is the JSON object with `"id":1`,
the timestamp member holding that text form (`RFC3339Nano`, as a string), the
value member holding the JSON string `"12345.6789"`, and
`"message":"default encoding"`, in this order and with no member omitted. -/
theorem defaultHandler_body (now : Time) (r : Request) (ts : String)
    (h : marshalTime now = .ok ts) :
    ts = "\"" ++ now.Format .RFC3339Nano ++ "\"" ∧
    defaultHandler now .fresh r =
      .ok ⟨jsonHeader, some (200, jsonHeader),
        "\x7b\"id\":1,\"timestamp\":" ++ ts ++
          ",\"value\":\"12345.6789\",\"message\":\"default encoding\"\x7d"⟩ := by
  refine ⟨marshalTime_ok now ts h, ?_⟩
  unfold defaultHandler
  rw [marshal_defaultPayload now ts h]
  exact respond_fresh_ok _

/-- Witness for C2 as amended: the clock reading 2024-03-09 14:05:07.12 -05:00. -/
theorem defaultHandler_body_witness :
    marshalTime ⟨2024, 3, 9, 14, 5, 7, 120000000, -18000⟩ =
        .ok "\"2024-03-09T14:05:07.12-05:00\"" ∧
    defaultHandler ⟨2024, 3, 9, 14, 5, 7, 120000000, -18000⟩ .fresh ⟨"GET", "/default"⟩ =
      .ok ⟨jsonHeader, some (200, jsonHeader),
        "\x7b\"id\":1,\"timestamp\":" ++ "\"2024-03-09T14:05:07.12-05:00\"" ++
          ",\"value\":\"12345.6789\",\"message\":\"default encoding\"\x7d"⟩ :=
  ⟨by rfl, (defaultHandler_body ⟨2024, 3, 9, 14, 5, 7, 120000000, -18000⟩ ⟨"GET", "/default"⟩
    "\"2024-03-09T14:05:07.12-05:00\"" (by rfl)).2⟩

/-- C3, the code at every record: under the options of `customHandler` the
encoding returns no output at all, so no member is present whatever the fields
hold; the record of `customHandler`, none of whose fields is zero, included. -/
theorem custom_marshal_returns_no_output (p : Payload) :
    (∀ out, Marshal p customOptions ≠ .ok out) ∧
    (∀ now out, Marshal (customPayload now) customOptions ≠ .ok out) := by
  constructor
  · intro out h
    rw [marshal_custom] at h
    cases h
  · intro now out h
    rw [marshal_custom] at h
    cases h

/-- C4, the code: after joining the options of `customHandler` the only
registered function is the one declared for `any` (`bigFloatAsString`; the
later `WithMarshalers` replaced `timeRFC3339`); that function is the one looked
up for `Payload`, for `time.Time`, for `int` and for `string`; and applied to
the enclosing `Payload`, which it receives as `*Payload`, it returns nil bytes
and a nil error. -/
theorem custom_options_register_only_any_rule (p : Payload) :
    (Struct.zero.Join customOptions).marshalers.map (fun a => a.fncVals.map (fun m => m.typ)) =
      some [GoType.any] ∧
    (bigFloatAsString.lookup .payload).map (fun m => m.typ) = some GoType.any ∧
    (bigFloatAsString.lookup .time).map (fun m => m.typ) = some GoType.any ∧
    (bigFloatAsString.lookup .int).map (fun m => m.typ) = some GoType.any ∧
    (bigFloatAsString.lookup .string).map (fun m => m.typ) = some GoType.any ∧
    castTo (.payload p) .any = .pointerTo (.payload p) ∧
    bigFloatAsStringFunc (castTo (.payload p) .any) = .returned ⟨none, none⟩ := by
  exact ⟨rfl, rfl, rfl, rfl, rfl, rfl, rfl⟩

/-- C5: for every `Payload` (zero fields included), whenever `json.Marshal`
under the options of `defaultHandler` returns output, the output is the object
whose members are `id`, `timestamp`, `value`, `message`, each once and in
declaration order: the text is the four members one after the other, and
scanning it for member names yields exactly that list. -/
theorem default_marshal_member_names (p : Payload) (out : String)
    (h : Marshal p defaultOptions = .ok out) :
    out = "\x7b\"id\":" ++ p.ID.repr ++
        ",\"timestamp\":" ++ ("\"" ++ p.Timestamp.Format .RFC3339Nano ++ "\"") ++
        ",\"value\":" ++ nullOrQuoted p.Value ++
        ",\"message\":" ++ AppendQuote p.Message ++ "\x7d" ∧
    objectMemberNames out = some ["id", "timestamp", "value", "message"] := by
  rw [marshal_default] at h
  cases hts : marshalTime p.Timestamp with
  | error e => rw [hts] at h; cases h
  | ok ts =>
    rw [hts] at h
    have hout := Except.ok.inj h
    rw [renderObject_payload] at hout
    have hts' := marshalTime_ok _ _ hts
    subst hts'
    subst hout
    refine ⟨rfl, ?_⟩
    exact memberNames_payload _ _ _ _ (isValueText_token _ (intRepr_token _))
      (isValueText_quoted_plain _ (format_RFC3339Nano_plain _)) (isValueText_nullOrQuoted _)
      (isValueText_AppendQuote _)

/-- Witness for C5: the all-zero `Payload`. -/
theorem default_marshal_member_names_witness :
    Marshal ⟨0, ⟨1, 1, 1, 0, 0, 0, 0, 0⟩, none, ""⟩ defaultOptions =
        .ok "\x7b\"id\":0,\"timestamp\":\"0001-01-01T00:00:00Z\",\"value\":null,\"message\":\"\"\x7d" ∧
    objectMemberNames
        "\x7b\"id\":0,\"timestamp\":\"0001-01-01T00:00:00Z\",\"value\":null,\"message\":\"\"\x7d" =
      some ["id", "timestamp", "value", "message"] :=
  ⟨by rfl, (default_marshal_member_names ⟨0, ⟨1, 1, 1, 0, 0, 0, 0, 0⟩, none, ""⟩
    "\x7b\"id\":0,\"timestamp\":\"0001-01-01T00:00:00Z\",\"value\":null,\"message\":\"\"\x7d"
    (by rfl)).2⟩

/-- C6: started on a fresh response, each handler ends in exactly one of two
states, decided by `json.Marshal`.  When encoding succeeds the status is 200,
the only header is `Content-Type: application/json` and the body is exactly
the encoded bytes.  When encoding returns an error the status is 500, the
headers are the plain-text content type and `nosniff` set by `http.Error`
(`application/json` is not set), and the body is the error message on a line
of its own, so no byte of an encoded record is written. -/
theorem handlers_reply_json_or_error (now : Time) (r : Request) :
    (∀ data, Marshal (defaultPayload now) defaultOptions = .ok data →
      defaultHandler now .fresh r = .ok ⟨jsonHeader, some (200, jsonHeader), data⟩) ∧
    (∀ err, Marshal (defaultPayload now) defaultOptions = .error (.error err) →
      defaultHandler now .fresh r = .ok ⟨errorHeader, some (500, errorHeader), err ++ "\n"⟩) ∧
    (∀ data, Marshal (customPayload now) customOptions = .ok data →
      customHandler now .fresh r = .ok ⟨jsonHeader, some (200, jsonHeader), data⟩) ∧
    (∀ err, Marshal (customPayload now) customOptions = .error (.error err) →
      customHandler now .fresh r = .ok ⟨errorHeader, some (500, errorHeader), err ++ "\n"⟩) ∧
    Header.Get jsonHeader "Content-Type" = "application/json" ∧
    Header.Get errorHeader "Content-Type" = "text/plain; charset=utf-8" := by
  refine ⟨?_, ?_, ?_, ?_, by rfl, by rfl⟩
  · intro data h
    unfold defaultHandler
    rw [h]
    exact respond_fresh_ok data
  · intro err h
    unfold defaultHandler
    rw [h]
    exact respond_fresh_error err
  · intro data h
    unfold customHandler
    rw [h]
    exact respond_fresh_ok data
  · intro err h
    unfold customHandler
    rw [h]
    exact respond_fresh_error err

/-- C7: for every timestamp `t` the function of `timeRFC3339` returns a nil
error and exactly a double quote, `t.Format(time.RFC3339)` (the date, `T`, the
clock and the zone offset) and a double quote; no character of the formatted
text needs escaping, so the output is one valid JSON string literal, equal to
what the encoder's own quoting gives and accepted by `WriteValue` unchanged. -/
theorem timeRFC3339_returns_json_string (t : Time) :
    timeRFC3339Func t = .returned ⟨some ("\"" ++ t.Format .RFC3339 ++ "\""), none⟩ ∧
    t.Format .RFC3339 =
      appendInt t.year 4 ++ "-" ++ appendInt t.month 2 ++ "-" ++ appendInt t.day 2 ++ "T" ++
        appendInt t.hour 2 ++ ":" ++ appendInt t.minute 2 ++ ":" ++ appendInt t.second 2 ++
        "" ++ appendZone t.offset ∧
    (∀ c ∈ (t.Format .RFC3339).data, appendEscaped c = [c]) ∧
    isJSONString ("\"" ++ t.Format .RFC3339 ++ "\"") = true ∧
    AppendQuote (t.Format .RFC3339) = "\"" ++ t.Format .RFC3339 ++ "\"" ∧
    WriteValue (some ("\"" ++ t.Format .RFC3339 ++ "\"")) =
      .ok ("\"" ++ t.Format .RFC3339 ++ "\"") := by
  have hp := format_RFC3339_plain t
  have hj := isJSONString_quoted_plain _ hp
  refine ⟨rfl, rfl, fun c hc => appendEscaped_plain c (hp c hc), hj, AppendQuote_plain _ hp, ?_⟩
  have hne : ("\"" ++ t.Format .RFC3339 ++ "\"").data ≠ [] := by
    simp [String.data_append]
  simp only [WriteValue, hne, if_false, hj, if_true]

/-- C8: the result of `json.Marshal` is a function of the record and the
option list alone, and the reply of each handler is a function of the clock
reading alone: two invocations at the same clock reading, whatever the two
requests, leave byte-identical responses. -/
theorem handlers_deterministic (now : Time) (p : Payload) (r1 r2 : Request) :
    (∀ out1 out2, Marshal p defaultOptions = out1 → Marshal p defaultOptions = out2 →
      out1 = out2) ∧
    (∀ out1 out2, Marshal p customOptions = out1 → Marshal p customOptions = out2 →
      out1 = out2) ∧
    defaultHandler now .fresh r1 = defaultHandler now .fresh r2 ∧
    customHandler now .fresh r1 = customHandler now .fresh r2 := by
  refine ⟨?_, ?_, rfl, rfl⟩
  · intro out1 out2 h1 h2; rw [← h1, ← h2]
  · intro out1 out2 h1 h2; rw [← h1, ← h2]

/-- C9, the code at every clock reading: the encoding in `customHandler` fails,
so its error branch is the only one taken and the reply has status 500. -/
theorem customHandler_error_branch_always_taken (now : Time) (r : Request) :
    (∀ data, Marshal (customPayload now) customOptions ≠ .ok data) ∧
    ∃ w, customHandler now .fresh r = .ok w ∧ w.wroteHeader.map Prod.fst = some 500 ∧
      Header.Get w.header "Content-Type" = "text/plain; charset=utf-8" := by
  constructor
  · intro data h
    rw [marshal_custom] at h
    cases h
  · refine ⟨⟨errorHeader, some (500, errorHeader),
      "json: cannot marshal: jsontext: unexpected EOF" ++ "\n"⟩, ?_, rfl, by rfl⟩
    unfold customHandler
    rw [marshal_custom]
    exact respond_fresh_error _

/-- C10, the failing instance: a nil `*big.Float` is an argument whose dynamic
type is `*big.Float`, yet the function returns nothing for it: the call panics
in `Text`. -/
theorem bigFloatAsString_nil_pointer_panics :
    (GoValue.nilPointer GoType.bigFloat).typeOf = GoType.pointer GoType.bigFloat ∧
    bigFloatAsStringFunc (GoValue.nilPointer GoType.bigFloat) =
      Call.panicked "invalid memory address or nil pointer dereference" ∧
    ∀ r, bigFloatAsStringFunc (GoValue.nilPointer GoType.bigFloat) ≠ Call.returned r := by
  refine ⟨rfl, rfl, ?_⟩
  intro r h
  cases h

/-- C10 as amended: the function of `bigFloatAsString` never returns an error;
it returns a non-empty rendering if and only if its argument is a non-nil
`*big.Float`; for a non-nil `*big.Float` the output is a double quote,
`Text('g', -1)` and a double quote; for an argument of any other dynamic type
it returns nil bytes and a nil error. -/
theorem bigFloatAsString_renders_non_nil_float_only (f : GoValue) :
    (∀ r, bigFloatAsStringFunc f = .returned r → r.err = none) ∧
    (∀ bf, bigFloatAsStringFunc (.pointerTo (.bigFloat bf)) =
      .returned ⟨some ("\"" ++ bf.Text ++ "\""), none⟩) ∧
    (f.typeOf ≠ .pointer .bigFloat → bigFloatAsStringFunc f = .returned ⟨none, none⟩) ∧
    ((∃ out e, out ≠ "" ∧ bigFloatAsStringFunc f = .returned ⟨some out, e⟩) ↔
      ∃ bf, f = .pointerTo (.bigFloat bf)) := by
  refine ⟨?_, fun _ => rfl, ?_, ?_⟩
  · intro r h
    unfold bigFloatAsStringFunc at h
    split at h
    · cases h; rfl
    · cases h
    · cases h; rfl
  · intro h
    unfold bigFloatAsStringFunc
    split
    · exact absurd rfl h
    · exact absurd rfl h
    · rfl
  · constructor
    · rintro ⟨out, e, _, h⟩
      unfold bigFloatAsStringFunc at h
      split at h
      · exact ⟨_, rfl⟩
      · cases h
      · cases h
    · rintro ⟨bf, rfl⟩
      exact ⟨_, none, quoted_ne_empty _, rfl⟩

/-! ## Further properties -/

/-- For every clock reading with a year in 0..9999 and a zone offset of less
than a day, the encoding in `defaultHandler` succeeds: the reply has status
200, the JSON content type, and the object with the four members as body. -/
theorem defaultHandler_succeeds_in_range (now : Time) (r : Request)
    (hy0 : 0 ≤ now.year) (hy1 : now.year ≤ 9999)
    (hlo : -86400 < now.offset) (hhi : now.offset < 86400) :
    defaultHandler now .fresh r =
      .ok ⟨jsonHeader, some (200, jsonHeader),
        "\x7b\"id\":1,\"timestamp\":" ++ ("\"" ++ now.Format .RFC3339Nano ++ "\"") ++
          ",\"value\":\"12345.6789\",\"message\":\"default encoding\"\x7d"⟩ := by
  unfold defaultHandler
  rw [marshal_defaultPayload now _ (marshalTime_succeeds now hy0 hy1 hlo hhi)]
  exact respond_fresh_ok _

/-- Witness for `defaultHandler_succeeds_in_range`: the clock reading
2024-03-09 14:05:07.12 -05:00. -/
theorem defaultHandler_succeeds_in_range_witness :
    (0 : Int) ≤ 2024 ∧ (2024 : Int) ≤ 9999 ∧ (-86400 : Int) < -18000 ∧ (-18000 : Int) < 86400 ∧
    defaultHandler ⟨2024, 3, 9, 14, 5, 7, 120000000, -18000⟩ .fresh ⟨"GET", "/default"⟩ =
      .ok ⟨jsonHeader, some (200, jsonHeader),
        "\x7b\"id\":1,\"timestamp\":" ++
          ("\"" ++ (⟨2024, 3, 9, 14, 5, 7, 120000000, -18000⟩ : Time).Format .RFC3339Nano ++ "\"") ++
          ",\"value\":\"12345.6789\",\"message\":\"default encoding\"\x7d"⟩ :=
  ⟨by decide, by decide, by decide, by decide,
    defaultHandler_succeeds_in_range ⟨2024, 3, 9, 14, 5, 7, 120000000, -18000⟩
      ⟨"GET", "/default"⟩ (by decide) (by decide) (by decide) (by decide)⟩

end JsonPlayground
